import Mathlib

/-!
Verification development for the chrome-for-testing installer and
browser-lifecycle controller.  The Go sources are embedded shallowly:
pure path manipulation (Go `path.Clean`, `io/fs.ValidPath`,
`filepath.Localize`, `filepath.Join` for the unix separator) is
translated to executable Lean functions on `String`; filesystem and
process effects (stat results, kill outcomes, io errors, the uuid
generator) are passed in explicitly as oracle values, so every
function here is a total, computable function of its inputs.
-/

namespace CFT

/-! ## Slash-separated path model (Go `path` package semantics) -/

/-- Splits a character list at every '/' into the list of segments
between separators, empty segments included.  This mirrors the byte
scan used by Go's `io/fs.ValidPath` and `path.Clean`. -/
def splitSegs : List Char → List (List Char)
  | [] => [[]]
  | c :: rest =>
    if c = '/' then [] :: splitSegs rest
    else
      match splitSegs rest with
      | [] => [[c]]
      | s :: ss => (c :: s) :: ss

/-- Raw segments of a path string, empties included. -/
def rawSegs (s : String) : List String :=
  (splitSegs s.data).map (fun l => String.mk l)

/-- Non-empty segments of a path string (Go `Clean` skips empty
elements produced by repeated or leading separators). -/
def parts (s : String) : List String :=
  (rawSegs s).filter (fun e => e != "")

/-- Whether the slash path is rooted, i.e. begins with '/'. -/
def isAbsPath (s : String) : Bool :=
  match s.data with
  | c :: _ => c == '/'
  | [] => false

/-- Core of Go `path.Clean` at the level of segment lists: skip ".",
pop one segment on ".." when possible, drop leading ".." when rooted,
keep leading ".." when relative.  The accumulator holds the output in
reverse order. -/
def cleanAux (rooted : Bool) : List String → List String → List String
  | acc, [] => acc.reverse
  | acc, e :: rest =>
    if e = "." then cleanAux rooted acc rest
    else if e = ".." then
      match acc with
      | a :: acc' =>
        if a = ".." then cleanAux rooted (".." :: a :: acc') rest
        else cleanAux rooted acc' rest
      | [] =>
        if rooted then cleanAux rooted [] rest
        else cleanAux rooted [".."] rest
    else cleanAux rooted (e :: acc) rest

/-- Cleaned segment list of a path. -/
def cleanSegs (rooted : Bool) (l : List String) : List String :=
  cleanAux rooted [] l

/-- Joins segments with the '/' separator (Go `strings.Join` with
separator "/"). -/
def joinSegStr : List String → String
  | [] => ""
  | e :: rest =>
    match rest with
    | [] => e
    | _ :: _ => e ++ "/" ++ joinSegStr rest

/-- Go `path.Clean` (also unix `filepath.Clean`): lexical
normalization of a slash-separated path. -/
def pathClean (s : String) : String :=
  match cleanSegs (isAbsPath s) (parts s) with
  | [] => if isAbsPath s then "/" else "."
  | c :: cs => (if isAbsPath s then "/" else "") ++ joinSegStr (c :: cs)

/-- Go unix `filepath.Join`: drop leading empty elements, then `Clean`
of the remaining elements joined by the separator. -/
def joinPath : List String → String
  | [] => ""
  | e :: rest => if e = "" then joinPath rest else pathClean (joinSegStr (e :: rest))

/-- Go `strings.TrimPrefix`: removes the leading `pfx` when present,
otherwise returns the string unchanged (prefix test and drop on the
character list; for unicode strings a character prefix is exactly a
byte prefix). -/
def trimPrefix (s pfx : String) : String :=
  if pfx.data.isPrefixOf s.data then String.mk (s.data.drop pfx.data.length) else s

/-- Go `io/fs.ValidPath` (Lean strings are always valid unicode, so
the UTF-8 validity test is vacuous here): "." is valid, and otherwise
every raw segment must be non-empty and distinct from "." and "..". -/
def fsValidPath (s : String) : Bool :=
  s == "." || (rawSegs s).all (fun e => e != "" && e != "." && e != "..")

/-- Target operating systems of the two `filepath.Localize`
implementations linked by build tags. -/
inductive TargetOS
  | unixLike
  | windows
deriving DecidableEq

/-- ASCII upper-casing of one character (Go `toUpper` on bytes). -/
def charUpper (c : Char) : Char :=
  if 'a' ≤ c ∧ c ≤ 'z' then Char.ofNat (c.toNat - 32) else c

/-- Go windows `path/filepath.isReservedName`: device names (CON, PRN,
AUX, NUL with an arbitrary tail after '.' or ':', COM and LPT followed
by a digit 1-9 or a superscript digit, and the console pseudo-files
CONIN$ and CONOUT$), matched case-insensitively. -/
def isReservedName (nm : String) : Bool :=
  let u := nm.data.map charUpper
  match u with
  | 'C' :: 'O' :: 'N' :: 'I' :: 'N' :: '$' :: [] => true
  | 'C' :: 'O' :: 'N' :: 'O' :: 'U' :: 'T' :: '$' :: [] => true
  | 'C' :: 'O' :: 'N' :: rest => rest = [] || rest.head? = some '.' || rest.head? = some ':'
  | 'P' :: 'R' :: 'N' :: rest => rest = [] || rest.head? = some '.' || rest.head? = some ':'
  | 'A' :: 'U' :: 'X' :: rest => rest = [] || rest.head? = some '.' || rest.head? = some ':'
  | 'N' :: 'U' :: 'L' :: rest => rest = [] || rest.head? = some '.' || rest.head? = some ':'
  | 'C' :: 'O' :: 'M' :: d :: [] => ('1' ≤ d && d ≤ '9') || d = '¹' || d = '²' || d = '³'
  | 'L' :: 'P' :: 'T' :: d :: [] => ('1' ≤ d && d ≤ '9') || d = '¹' || d = '²' || d = '³'
  | _ => false

/-- Go `filepath.Localize`: checks `fs.ValidPath`, then the per-OS
conversion.  The unix build only rejects NUL bytes and returns the
path unchanged; the windows build additionally rejects ':', '\',
NUL and reserved device-name segments, and converts separators. -/
def localizeOS (os : TargetOS) (s : String) : Except String String :=
  if !fsValidPath s then Except.error "invalid path"
  else
    match os with
    | TargetOS.unixLike =>
      if s.data.any (fun c => c = Char.ofNat 0) then Except.error "invalid path"
      else Except.ok s
    | TargetOS.windows =>
      if s.data.any (fun c => c = ':' || c = '\\' || c = Char.ofNat 0) then
        Except.error "invalid path"
      else if (rawSegs s).any isReservedName then Except.error "invalid path"
      else Except.ok (String.mk (s.data.map (fun c => if c = '/' then '\\' else c)))

/-- First cleaned segment is "..": the claim's "path-traversal
sequence (leading '..' after cleaning)". -/
def leadsParentDir (s : String) : Bool :=
  match parts s with
  | e :: _ => e == ".."
  | [] => false

/-- Drive-letter syntax: an ASCII letter immediately followed by ':'. -/
def hasDriveColon (s : String) : Bool :=
  match s.data with
  | c :: d :: _ => (('a' ≤ c && c ≤ 'z') || ('A' ≤ c && c ≤ 'Z')) && d = ':'
  | _ => false

/-- Union of the escape-like shapes named by the localization claim:
leading ".." after cleaning, absolute path / leading separator, or
drive-letter syntax. -/
def escapeLike (s : String) : Bool :=
  leadsParentDir s || isAbsPath s || hasDriveColon s

/-- The escape shapes that the unix `Localize` rejects (drive-letter
syntax is only meaningful, and only rejected, on windows). -/
def escapeLikeUnix (s : String) : Bool :=
  leadsParentDir s || isAbsPath s

/-- The containment predicate of the extraction claim: `p` has the
same rootedness as `dst` and its segments extend the cleaned segments
of `dst`. -/
def underDirB (dst p : String) : Bool :=
  (isAbsPath p == isAbsPath dst) &&
    (cleanSegs (isAbsPath dst) (parts dst)).isPrefixOf (parts p)

/-- Segments that `cleanAux` passes through unchanged: neither "." nor
"..". -/
def segsPlain (l : List String) : Bool :=
  l.all (fun e => e != "." && e != "..")

/-- A string containing no '/' character. -/
def noSlash (s : String) : Bool :=
  !s.data.any (fun c => c = '/')

/-- The cleaned segment list of a path string. -/
def cleanedSegs (s : String) : List String :=
  cleanSegs (isAbsPath s) (parts s)

/-! ## Archive installer (`unzip` in cache.go) -/

/-- One archive entry: its slash-separated name, whether it is a
directory entry, and its declared uncompressed size. -/
structure ZipEntry where
  name : String
  isDir : Bool
  size : Nat
deriving DecidableEq

/-- Result of the `os.OpenFile` call for a file entry. -/
inductive OpenFileRes
  | opened
  | errNotExist
  | errOther
deriving DecidableEq

/-- Oracle for the filesystem and archive-reading effects of one loop
iteration of `unzip`. -/
structure EntryEnv where
  openZipOk : Bool
  fileRes : OpenFileRes
  mkdirAllOk : Bool
  createOk : Bool
  copied : Option Nat
  closeOk : Bool
  closeZipOk : Bool
deriving DecidableEq

/-- The copy / close / size-check tail of the file-entry branch of
`unzip`. -/
def unzipCopyPhase (nm : String) (e : ZipEntry) (env : EntryEnv) : Option String :=
  match env.copied with
  | none => some ("extracting file " ++ nm)
  | some n =>
    if !env.closeOk then some ("closing file " ++ nm)
    else if n ≠ e.size then some ("extracted size mismatch for file " ++ nm)
    else if !env.closeZipOk then some ("closing zip contents file " ++ e.name)
    else none

/-- One loop iteration of `unzip`: returns the destination paths it
hands to the filesystem for creation, and the error that aborts the
loop, if any.  Mirrors cache.go: open the entry, clean the name, strip
the prefix, localize, join onto `dst`, then create a directory or a
file (with the mkdir-and-retry branch when the parent is missing). -/
def unzipEntry (pfxSlash dst : String) (e : ZipEntry) (env : EntryEnv) :
    List String × Option String :=
  if !env.openZipOk then ([], some ("opening zip contents file " ++ e.name))
  else
    match localizeOS TargetOS.unixLike (trimPrefix (pathClean e.name) pfxSlash) with
    | Except.error _ => ([], some ("localizing path " ++ e.name))
    | Except.ok loc =>
      if e.isDir then
        ([joinPath [dst, loc]],
         if env.mkdirAllOk then none
         else some ("creating directory " ++ joinPath [dst, loc]))
      else
        match env.fileRes with
        | OpenFileRes.errOther =>
          ([joinPath [dst, loc]], some ("creating file " ++ joinPath [dst, loc]))
        | OpenFileRes.errNotExist =>
          if !env.mkdirAllOk then
            ([joinPath [dst, loc]],
             some ("creating directory for " ++ joinPath [dst, loc]))
          else if !env.createOk then
            ([joinPath [dst, loc]],
             some ("creating file " ++ joinPath [dst, loc] ++ " after creating directory"))
          else ([joinPath [dst, loc]], unzipCopyPhase (joinPath [dst, loc]) e env)
        | OpenFileRes.opened =>
          ([joinPath [dst, loc]], unzipCopyPhase (joinPath [dst, loc]) e env)

/-- The entry loop of `unzip`: stops at the first failing entry. -/
def unzipLoop (pfxSlash dst : String) :
    List (ZipEntry × EntryEnv) → List String × Option String
  | [] => ([], none)
  | (e, env) :: rest =>
    match unzipEntry pfxSlash dst e env with
    | (ws, some err) => (ws, some err)
    | (ws, none) =>
      (ws ++ (unzipLoop pfxSlash dst rest).1, (unzipLoop pfxSlash dst rest).2)

/-- Go `unzip(ctx, prefix, src, dst)`: the reader-open oracle, then
`prefix = filepath.Clean(prefix) + "/"`, then the entry loop. -/
def unzip (openOk : Bool) (pfx dst : String) (entries : List (ZipEntry × EntryEnv)) :
    List String × Option String :=
  if !openOk then ([], some "opening zip reader")
  else unzipLoop (pathClean pfx ++ "/") dst entries

/-- The cleaned, prefix-stripped form of an entry name, as computed by
`unzip` before localization. -/
def strippedName (pfx nm : String) : String :=
  trimPrefix (pathClean nm) (pathClean pfx ++ "/")

/-! ## Data model (types.go) -/

/-- Release platforms, mirroring the `Platform` enum. -/
inductive Platform
  | linux64
  | macArm64
  | macX64
  | win64
deriving DecidableEq

/-- `Platform.String()`. -/
def Platform.str : Platform → String
  | linux64 => "linux64"
  | macArm64 => "mac-arm64"
  | macX64 => "mac-x64"
  | win64 => "win64"

/-- Release channels, mirroring the `Channel` enum. -/
inductive Channel
  | stable
  | beta
  | dev
  | canary
deriving DecidableEq

/-- `Channel.String()`. -/
def Channel.str : Channel → String
  | stable => "stable"
  | beta => "beta"
  | dev => "dev"
  | canary => "canary"

/-- Applications, mirroring the `Application` enum. -/
inductive Application
  | chrome
  | chromedriver
  | chromeHeadlessShell
deriving DecidableEq

/-- `Application.String()`. -/
def Application.str : Application → String
  | chrome => "chrome"
  | chromedriver => "chromedriver"
  | chromeHeadlessShell => "chrome-headless-shell"

/-- One manifest download record. -/
structure Download where
  platform : String
  url : String
deriving DecidableEq

/-- A resolved download selection (the `pfx` field is named `Prefix`
in the Go source). -/
structure SelectedDownload where
  platform : Platform
  channel : Channel
  application : Application
  download : Download
  version : String
  revision : String
  pfx : String
deriving DecidableEq

/-! ## Installation cache (cache.go) -/

/-- An `installSpec` row (the `fromDir`/`toDir` fields are named
`from`/`to` in the Go source, which are keywords here). -/
structure installSpec where
  fromDir : String
  toDir : String
  binary : String
deriving DecidableEq

/-- The `chromeInstallSpecs` map.  The mac entry's fields are built
with `filepath.Join` exactly as in the source. -/
def chromeInstallSpecs : Platform → Option installSpec
  | Platform.linux64 => some ⟨"chrome-linux64", "x64", "chrome"⟩
  | Platform.win64 => some ⟨"chrome-win64", "x64", "chrome.exe"⟩
  | Platform.macArm64 =>
    some ⟨"chrome-mac-arm64", joinPath ["x64"],
      joinPath ["Google Chrome for Testing.app", "Contents", "MacOS",
        "Google Chrome for Testing"]⟩
  | Platform.macX64 => none

/-- The `chromeDriverInstallSpecs` map. -/
def chromeDriverInstallSpecs : Platform → Option installSpec
  | Platform.linux64 => some ⟨"chromedriver-linux64", "x64", "chromedriver"⟩
  | Platform.win64 => some ⟨"chromedriver-win64", "x64", "chromedriver.exe"⟩
  | Platform.macArm64 => some ⟨"chromedriver-mac-arm64", "x64", "chromedriver"⟩
  | Platform.macX64 => none

/-- The `switch sd.Application` of `applicationPaths`: which spec
table serves the application, if any. -/
def installSpecsFor : Application → Option (Platform → Option installSpec)
  | Application.chrome => some chromeInstallSpecs
  | Application.chromedriver => some chromeDriverInstallSpecs
  | Application.chromeHeadlessShell => none

/-- The `toolCache` record (`uuidMode` is the `uuid` field: naming
mode for download files). -/
structure toolCache where
  tempDir : String
  cacheDir : String
  uuidMode : Bool
deriving DecidableEq

/-- `toolCache.applicationPaths`: resolves the spec table by
application, the spec by platform, and builds the binary and install
paths under `<cacheDir>/setup-chrome/<application>/<channel>/<to>`.
Returns `(prefix, binary, install)`. -/
def applicationPaths (tc : toolCache) (sd : SelectedDownload) :
    Except String (String × String × String) :=
  match installSpecsFor sd.application with
  | none => Except.error ("unknown application \"" ++ sd.application.str ++ "\"")
  | some specs =>
    match specs sd.platform with
    | none => Except.error ("no install spec for platform \"" ++ sd.platform.str ++ "\"")
    | some sp =>
      Except.ok (sp.fromDir,
        joinPath [tc.cacheDir, "setup-chrome", sd.application.str, sd.channel.str,
          sp.toDir, sp.binary],
        joinPath [tc.cacheDir, "setup-chrome", sd.application.str, sd.channel.str,
          sp.toDir])

/-- The platform-missing / application-missing condition of
`applicationPaths`, i.e. whether an `installSpec` exists for the
(application, platform) pair. -/
def hasInstallSpec (a : Application) (p : Platform) : Bool :=
  match installSpecsFor a with
  | none => false
  | some specs => (specs p).isSome

/-! ## SHA-256 and base64url (crypto/sha256, encoding/base64), used by
`downloadPath` in content-hash mode.  Words are `Nat` reduced modulo
2^32 explicitly. -/

/-- UTF-8 encoding of one character (Go `[]byte(string)`). -/
def utf8Bytes (c : Char) : List Nat :=
  let v := c.toNat
  if v < 128 then [v]
  else if v < 2048 then [192 + v / 64, 128 + v % 64]
  else if v < 65536 then [224 + v / 4096, 128 + (v / 64) % 64, 128 + v % 64]
  else [240 + v / 262144, 128 + (v / 4096) % 64, 128 + (v / 64) % 64, 128 + v % 64]

/-- UTF-8 bytes of a string. -/
def strBytes (s : String) : List Nat :=
  s.data.flatMap utf8Bytes

/-- 32-bit right rotation. -/
def rotr32 (n x : Nat) : Nat :=
  ((x >>> n) ||| (x <<< (32 - n))) % 4294967296

/-- The 64 SHA-256 round constants of FIPS 180-4, written in
decimal. -/
def sha256K : List Nat :=
  [1116352408, 1899447441, 3049323471, 3921009573, 961987163,
   1508970993, 2453635748, 2870763221, 3624381080, 310598401,
   607225278, 1426881987, 1925078388, 2162078206, 2614888103,
   3248222580, 3835390401, 4022224774, 264347078, 604807628,
   770255983, 1249150122, 1555081692, 1996064986, 2554220882,
   2821834349, 2952996808, 3210313671, 3336571891, 3584528711,
   113926993, 338241895, 666307205, 773529912, 1294757372,
   1396182291, 1695183700, 1986661051, 2177026350, 2456956037,
   2730485921, 2820302411, 3259730800, 3345764771, 3516065817,
   3600352804, 4094571909, 275423344, 430227734, 506948616,
   659060556, 883997877, 958139571, 1322822218, 1537002063,
   1747873779, 1955562222, 2024104815, 2227730452, 2361852424,
   2428436474, 2756734187, 3204031479, 3329325298]

/-- SHA-256 message padding: append 0x80, zero bytes to 56 mod 64,
then the bit length as 8 big-endian bytes. -/
def sha256Pad (msg : List Nat) : List Nat :=
  let len := msg.length
  let padLen := (55 + 64 - len % 64) % 64 + 1
  let bitLen := len * 8
  msg ++ [128] ++ List.replicate (padLen - 1) 0 ++
    [bitLen / 2 ^ 56 % 256, bitLen / 2 ^ 48 % 256, bitLen / 2 ^ 40 % 256,
     bitLen / 2 ^ 32 % 256, bitLen / 2 ^ 24 % 256, bitLen / 2 ^ 16 % 256,
     bitLen / 2 ^ 8 % 256, bitLen % 256]

/-- Packs big-endian byte quadruples into 32-bit words. -/
def bytesToWords : List Nat → List Nat
  | b0 :: b1 :: b2 :: b3 :: rest =>
    (b0 * 2 ^ 24 + b1 * 2 ^ 16 + b2 * 2 ^ 8 + b3) :: bytesToWords rest
  | _ => []

/-- Splits a list into chunks of 16 elements (with a structural fuel
argument so that the kernel can evaluate it; the fuel `l.length`
always suffices because every step consumes at least one element). -/
def chunks16Fuel : Nat → List Nat → List (List Nat)
  | 0, _ => []
  | _, [] => []
  | fuel + 1, x :: rest => (x :: rest).take 16 :: chunks16Fuel fuel ((x :: rest).drop 16)

/-- Splits a list into chunks of 16 elements. -/
def chunks16 (l : List Nat) : List (List Nat) :=
  chunks16Fuel l.length l

/-- Appends one word of the extended SHA-256 message schedule. -/
def scheduleStep (w : List Nat) : List Nat :=
  let i := w.length
  let g := fun j => w.getD j 0
  let s0 := rotr32 7 (g (i - 15)) ^^^ rotr32 18 (g (i - 15)) ^^^ (g (i - 15)) >>> 3
  let s1 := rotr32 17 (g (i - 2)) ^^^ rotr32 19 (g (i - 2)) ^^^ (g (i - 2)) >>> 10
  w ++ [(g (i - 16) + s0 + g (i - 7) + s1) % 4294967296]

/-- Extends a 16-word block to the 64-word schedule. -/
def extendW (w : List Nat) : Nat → List Nat
  | 0 => w
  | n + 1 => extendW (scheduleStep w) n

/-- One SHA-256 compression round. -/
def sha256Round (st : Nat × Nat × Nat × Nat × Nat × Nat × Nat × Nat) (kw : Nat × Nat) :
    Nat × Nat × Nat × Nat × Nat × Nat × Nat × Nat :=
  let (a, b, c, d, e, f, g, h) := st
  let s1 := rotr32 6 e ^^^ rotr32 11 e ^^^ rotr32 25 e
  let ch := (e &&& f) ^^^ ((e ^^^ 4294967295) &&& g)
  let t1 := (h + s1 + ch + kw.1 + kw.2) % 4294967296
  let s0 := rotr32 2 a ^^^ rotr32 13 a ^^^ rotr32 22 a
  let mj := (a &&& b) ^^^ (a &&& c) ^^^ (b &&& c)
  let t2 := (s0 + mj) % 4294967296
  ((t1 + t2) % 4294967296, a, b, c, (d + t1) % 4294967296, e, f, g)

/-- Processes one 16-word chunk against the running hash state. -/
def sha256Chunk (hs : List Nat) (chunk : List Nat) : List Nat :=
  let w := extendW chunk 48
  let g := fun j => hs.getD j 0
  let st0 := (g 0, g 1, g 2, g 3, g 4, g 5, g 6, g 7)
  let (a, b, c, d, e, f, gg, h) := (sha256K.zip w).foldl sha256Round st0
  [(g 0 + a) % 4294967296, (g 1 + b) % 4294967296, (g 2 + c) % 4294967296,
   (g 3 + d) % 4294967296, (g 4 + e) % 4294967296, (g 5 + f) % 4294967296,
   (g 6 + gg) % 4294967296, (g 7 + h) % 4294967296]

/-- `sha256.Sum256`: the 32 digest bytes of a byte list. -/
def sha256Sum (msg : List Nat) : List Nat :=
  let blocks := chunks16 (bytesToWords (sha256Pad msg))
  let hs := blocks.foldl sha256Chunk
    [1779033703, 3144134277, 1013904242, 2773480762,
     1359893119, 2600822924, 528734635, 1541459225]
  hs.flatMap (fun wd => [wd / 2 ^ 24 % 256, wd / 2 ^ 16 % 256, wd / 2 ^ 8 % 256, wd % 256])

/-- The base64url alphabet (Go `base64.RawURLEncoding`). -/
def b64Alphabet : List Char :=
  "ABCDEFGHIJKLMNOPQRSTUVWXYZabcdefghijklmnopqrstuvwxyz0123456789-_".data

/-- One alphabet character. -/
def b64Char (n : Nat) : Char :=
  b64Alphabet.getD n 'A'

/-- Unpadded base64url encoding of a byte list (Go
`base64.RawURLEncoding.EncodeToString`). -/
def b64RawURL : List Nat → List Char
  | b0 :: b1 :: b2 :: rest =>
    b64Char (b0 / 4) :: b64Char (b0 % 4 * 16 + b1 / 16) ::
      b64Char (b1 % 16 * 4 + b2 / 64) :: b64Char (b2 % 64) :: b64RawURL rest
  | [b0, b1] =>
    [b64Char (b0 / 4), b64Char (b0 % 4 * 16 + b1 / 16), b64Char (b1 % 16 * 4)]
  | [b0] => [b64Char (b0 / 4), b64Char (b0 % 4 * 16)]
  | [] => []

/-- `toolCache.downloadPath`: in uuid mode joins the temp directory
with a freshly generated random identifier (`uuid.NewRandom` is passed
in as an oracle, errors included); in content-hash mode joins it with
the base64url-encoded SHA-256 of the download URL. -/
def downloadPath (tc : toolCache) (uuidRes : Except String String)
    (downloadURL : String) : Except String String :=
  if tc.uuidMode then
    match uuidRes with
    | Except.error e => Except.error ("generating uuid for download cache file: " ++ e)
    | Except.ok u => Except.ok (joinPath [tc.tempDir, u])
  else
    Except.ok (joinPath [tc.tempDir,
      String.mk (b64RawURL (sha256Sum (strBytes downloadURL)))])

/-- A uuid-shaped file name: non-empty, slash-free and not a dot
element (every RFC 4122 uuid string satisfies this). -/
def simpleSeg (s : String) : Bool :=
  s != "" && s != "." && s != ".." && !s.data.any (fun c => c = '/')

/-! ## Process lifecycle controller (init.go) -/

/-- Outcome of one `os.Stat(profileDir)` poll in `waitForProfile`. -/
inductive StatRes
  | isDirRes
  | notDirRes
  | notExistRes
  | statErrRes
deriving DecidableEq

/-- `browser.waitForProfile` over the sequence of stat outcomes the
polling loop observes; the end of the list is the expiry of the
timeout context (the `ctx.Done()` branch).  A stat of a directory
returns true; a stat of a non-directory returns false at once; a
missing path or any other stat error is retried. -/
def waitForProfile : List StatRes → Bool
  | [] => false
  | StatRes.isDirRes :: _ => true
  | StatRes.notDirRes :: _ => false
  | StatRes.notExistRes :: rest => waitForProfile rest
  | StatRes.statErrRes :: rest => waitForProfile rest

/-- The three distinct exits of the `waitForProfile` loop, refining
the boolean: ready (stat saw a directory), hard failure (stat saw a
non-directory), timeout (context expired). -/
inductive ProfileOutcome
  | ready
  | hardFail
  | timedOut
deriving DecidableEq

/-- Which exit of `waitForProfile` a stat sequence takes. -/
def waitForProfileOutcome : List StatRes → ProfileOutcome
  | [] => ProfileOutcome.timedOut
  | StatRes.isDirRes :: _ => ProfileOutcome.ready
  | StatRes.notDirRes :: _ => ProfileOutcome.hardFail
  | StatRes.notExistRes :: rest => waitForProfileOutcome rest
  | StatRes.statErrRes :: rest => waitForProfileOutcome rest

/-- Outcome of one `os.Stat(lockFile)` poll in
`waitForLockFileRemoval`. -/
inductive LockRes
  | presentRes
  | goneRes
  | lockErrRes
deriving DecidableEq

/-- `browser.waitForLockFileRemoval` over its poll outcomes: true on
the first stat reporting the file gone, false when the timeout context
expires; presence and stat errors are retried. -/
def waitForLockFileRemoval : List LockRes → Bool
  | [] => false
  | LockRes.goneRes :: _ => true
  | LockRes.presentRes :: rest => waitForLockFileRemoval rest
  | LockRes.lockErrRes :: rest => waitForLockFileRemoval rest

/-- The externally visible calls `browser.init` makes, in order. -/
inductive Action
  | startCmd
  | waitProfile
  | signalAndWait
  | checkStopped
  | waitLock
  | terminateByPath
deriving DecidableEq

/-- The two error exits of `browser.init` (the start failure and the
lock-file-still-present failure; the source has no other `return`
of a non-nil error). -/
inductive InitError
  | startFailed
  | lockStillPresent
deriving DecidableEq

/-- Oracle for the effects of one `browser.init` run: whether
`cmd.Start` succeeds, the profile-poll outcomes, whether
`executil.SignalAndWait` returns an error, whether
`executil.IsStopped(pid)` reports the process gone, and the lock-file
poll outcomes. -/
structure InitEnv where
  startOk : Bool
  profileStats : List StatRes
  signalErr : Bool
  stopped : Bool
  lockStats : List LockRes
deriving DecidableEq

/-- `browser.init`: start the process; wait for the profile; on
success return nil.  Otherwise signal-and-wait (interrupt then kill,
result only logged), check the pid (result only logged), then wait for
the SingletonLock removal and fail exactly when that wait times out.
Returns the trace of external calls and the error, if any. -/
def browserInit (env : InitEnv) : List Action × Option InitError :=
  if !env.startOk then ([Action.startCmd], some InitError.startFailed)
  else if waitForProfile env.profileStats then
    ([Action.startCmd, Action.waitProfile], none)
  else
    ([Action.startCmd, Action.waitProfile, Action.signalAndWait,
      Action.checkStopped, Action.waitLock],
     if waitForLockFileRemoval env.lockStats then none
     else some InitError.lockStillPresent)

/-! ## User data directory (userDataDirCmd source file) -/

/-- `getUserDataDir(goos)` with the two environment variables it reads
passed in explicitly.  Note the source maps "linux" to the
`Library/Application Support` tree and "darwin" to the `.config`
tree. -/
def getUserDataDir (goos home localAppData : String) : Except String String :=
  if goos = "linux" then
    if home = "" then Except.error "HOME environment variable not set"
    else Except.ok (joinPath [home, "Library", "Application Support", "Google",
      "Chrome for Testing"])
  else if goos = "darwin" then
    if home = "" then Except.error "HOME environment variable not set"
    else Except.ok (joinPath [home, ".config", "google-chrome-for-testing"])
  else if goos = "windows" then
    if localAppData = "" then Except.error "LOCALAPPDATA environment variable not set"
    else Except.ok (joinPath [localAppData, "Google", "Chrome for Testing",
      "User Data", "Default"])
  else Except.error ("unsupported platform \"" ++ goos ++ "\"")

/-- Whether an `Except` result is an error. -/
def isErr {α β : Type} : Except α β → Bool
  | Except.error _ => true
  | Except.ok _ => false

/-! ## Lemmas about the path model -/

theorem splitSegs_ne_nil (l : List Char) : splitSegs l ≠ [] := by
  cases l with
  | nil => simp [splitSegs]
  | cons c rest =>
    by_cases hc : c = '/'
    · simp [splitSegs, hc]
    · simp only [splitSegs, if_neg hc]
      rcases h : splitSegs rest with _ | ⟨s, ss⟩ <;> simp

theorem splitSegs_append (a b : List Char) :
    splitSegs (a ++ '/' :: b) = splitSegs a ++ splitSegs b := by
  induction a with
  | nil => simp [splitSegs]
  | cons c a ih =>
    by_cases hc : c = '/'
    · subst hc
      simp [splitSegs, ih]
    · simp only [List.cons_append, splitSegs, if_neg hc]
      rcases h : splitSegs a with _ | ⟨s, ss⟩
      · exact absurd h (splitSegs_ne_nil a)
      · rw [List.append_eq, ih, h]
        simp

theorem mem_splitSegs_noSlash (l : List Char) :
    ∀ s ∈ splitSegs l, '/' ∉ s := by
  induction l with
  | nil =>
    intro s hs
    simp [splitSegs] at hs
    simp [hs]
  | cons c rest ih =>
    intro s hs
    by_cases hc : c = '/'
    · simp only [splitSegs, if_pos hc, List.mem_cons] at hs
      rcases hs with h | h
      · simp [h]
      · exact ih s h
    · simp only [splitSegs, if_neg hc] at hs
      rcases h : splitSegs rest with _ | ⟨p, ps⟩
      · exact absurd h (splitSegs_ne_nil rest)
      · rw [h] at hs
        simp only [List.mem_cons] at hs
        rcases hs with h1 | h1
        · subst h1
          intro hmem
          rcases List.mem_cons.mp hmem with h2 | h2
          · exact hc h2.symm
          · exact ih p (by rw [h]; exact List.mem_cons_self _ _) h2
        · exact ih s (by rw [h]; exact List.mem_cons_of_mem _ h1)

theorem str_data_ne_nil (s : String) (h : s ≠ "") : s.data ≠ [] := by
  intro hd
  apply h
  cases s with
  | mk d => cases hd; rfl

theorem data_append3 (a b : String) :
    (a ++ "/" ++ b).data = a.data ++ '/' :: b.data := by
  rw [String.data_append, String.data_append]
  simp [show ("/" : String).data = ['/'] from rfl]

theorem rawSegs_append (a b : String) :
    rawSegs (a ++ "/" ++ b) = rawSegs a ++ rawSegs b := by
  unfold rawSegs
  rw [data_append3, splitSegs_append, List.map_append]

theorem parts_append (a b : String) :
    parts (a ++ "/" ++ b) = parts a ++ parts b := by
  unfold parts
  rw [rawSegs_append, List.filter_append]

theorem mem_parts_ok (s : String) :
    ∀ e ∈ parts s, e ≠ "" ∧ noSlash e = true := by
  intro e he
  unfold parts at he
  have h1 := List.of_mem_filter he
  have h2 := List.mem_of_mem_filter he
  refine ⟨by simpa using h1, ?_⟩
  unfold rawSegs at h2
  rcases List.mem_map.mp h2 with ⟨l, hl, rfl⟩
  have hns := mem_splitSegs_noSlash s.data l hl
  unfold noSlash
  simp only [Bool.not_eq_true']
  rw [List.any_eq_false]
  intro c hc
  simp only [decide_eq_true_eq]
  intro hceq
  exact hns (hceq ▸ hc)

theorem splitSegs_noSlash_eq (l : List Char) (h : '/' ∉ l) : splitSegs l = [l] := by
  induction l with
  | nil => rfl
  | cons c rest ih =>
    have hc : ¬c = '/' := fun hh => h (hh ▸ List.mem_cons_self _ _)
    simp only [splitSegs, if_neg hc]
    rw [ih (fun hm => h (List.mem_cons_of_mem _ hm))]

theorem parts_single (e : String) (h1 : e ≠ "") (h2 : noSlash e = true) :
    parts e = [e] := by
  unfold parts rawSegs
  have hns : '/' ∉ e.data := by
    unfold noSlash at h2
    simp only [Bool.not_eq_true'] at h2
    rw [List.any_eq_false] at h2
    intro hm
    have := h2 _ hm
    simp at this
  rw [splitSegs_noSlash_eq e.data hns]
  simp [h1]

theorem parts_empty : parts "" = [] := rfl

theorem cleanAux_shift (xs : List String) (r : Bool) (acc ys : List String) :
    cleanAux r acc (xs ++ ys) = cleanAux r (cleanAux r acc xs).reverse ys := by
  induction xs generalizing acc with
  | nil => simp [cleanAux]
  | cons e xs ih =>
    by_cases h1 : e = "."
    · simp only [List.cons_append, cleanAux, if_pos h1]
      exact ih acc
    · by_cases h2 : e = ".."
      · simp only [List.cons_append, cleanAux, if_neg h1, if_pos h2]
        cases acc with
        | nil => cases r <;> simp <;> exact ih _
        | cons a acc' => by_cases h3 : a = ".." <;> simp [h3] <;> exact ih _
      · simp only [List.cons_append, cleanAux, if_neg h1, if_neg h2]
        exact ih _

theorem cleanAux_plain (ys : List String) (r : Bool) (acc : List String)
    (h : segsPlain ys = true) : cleanAux r acc ys = acc.reverse ++ ys := by
  induction ys generalizing acc with
  | nil => simp [cleanAux]
  | cons e ys ih =>
    unfold segsPlain at h
    simp only [List.all_cons, Bool.and_eq_true, bne_iff_ne] at h
    obtain ⟨⟨h1, h2⟩, h3⟩ := h
    simp only [cleanAux, if_neg h1, if_neg h2]
    rw [ih _ (by unfold segsPlain; simpa using h3)]
    simp

theorem cleanSegs_append_plain (r : Bool) (xs ys : List String)
    (h : segsPlain ys = true) :
    cleanSegs r (xs ++ ys) = cleanSegs r xs ++ ys := by
  unfold cleanSegs
  rw [cleanAux_shift, cleanAux_plain _ _ _ h]
  simp

theorem cleanSegs_append_dot (r : Bool) (xs : List String) :
    cleanSegs r (xs ++ ["."]) = cleanSegs r xs := by
  unfold cleanSegs
  rw [cleanAux_shift]
  simp [cleanAux]

theorem cleanAux_all (P : String → Prop) (hdd : P "..") (xs : List String) :
    ∀ (r : Bool) (acc : List String), (∀ a ∈ acc, P a) → (∀ x ∈ xs, P x) →
      ∀ e ∈ cleanAux r acc xs, P e := by
  induction xs with
  | nil =>
    intro r acc hacc _ e he
    simp only [cleanAux, List.mem_reverse] at he
    exact hacc e he
  | cons x xs ih =>
    intro r acc hacc hxs e he
    have hx := hxs x (List.mem_cons_self _ _)
    have hxs' : ∀ y ∈ xs, P y := fun y hy => hxs y (List.mem_cons_of_mem _ hy)
    by_cases h1 : x = "."
    · rw [show cleanAux r acc (x :: xs) = cleanAux r acc xs by
        simp only [cleanAux, if_pos h1]] at he
      exact ih r acc hacc hxs' e he
    · by_cases h2 : x = ".."
      · simp only [cleanAux, if_neg h1, if_pos h2] at he
        cases acc with
        | nil =>
          cases r with
          | false =>
            simp only at he
            refine ih _ [".."] ?_ hxs' e he
            intro a ha
            simp only [List.mem_singleton] at ha
            rw [ha]
            exact hdd
          | true =>
            simp only at he
            exact ih _ [] (by simp) hxs' e he
        | cons a acc' =>
          by_cases h3 : a = ".."
          · simp only [if_pos h3] at he
            refine ih r _ ?_ hxs' e he
            intro y hy
            rcases List.mem_cons.mp hy with h4 | h4
            · rw [h4]; exact hdd
            · exact hacc y h4
          · simp only [if_neg h3] at he
            exact ih r acc' (fun y hy => hacc y (List.mem_cons_of_mem _ hy)) hxs' e he
      · simp only [cleanAux, if_neg h1, if_neg h2] at he
        refine ih r (x :: acc) ?_ hxs' e he
        intro y hy
        rcases List.mem_cons.mp hy with h4 | h4
        · rw [h4]; exact hx
        · exact hacc y h4

theorem mem_cleanedSegs_ok (s : String) :
    ∀ e ∈ cleanedSegs s, e ≠ "" ∧ noSlash e = true := by
  unfold cleanedSegs cleanSegs
  exact cleanAux_all _ ⟨by decide, by decide⟩ _ _ _ (by simp) (mem_parts_ok s)

theorem empty_append_str (x : String) : "" ++ x = x := by
  cases x with
  | mk d => rfl

theorem isAbsPath_append (a b : String) (ha : a.data ≠ []) :
    isAbsPath (a ++ b) = isAbsPath a := by
  unfold isAbsPath
  rw [String.data_append]
  cases hd : a.data with
  | nil => exact absurd hd ha
  | cons c l => simp [hd]

theorem isAbsPath_append3 (a b : String) (ha : a.data ≠ []) :
    isAbsPath (a ++ "/" ++ b) = isAbsPath a := by
  have h2 : (a ++ "/").data ≠ [] := by
    rw [String.data_append]
    intro hc
    exact absurd (List.append_eq_nil.mp hc).2 (by decide)
  rw [isAbsPath_append (a ++ "/") b h2, isAbsPath_append a "/" ha]

theorem isAbsPath_joinSegStr (e : String) (rest : List String) (he : e.data ≠ []) :
    isAbsPath (joinSegStr (e :: rest)) = isAbsPath e := by
  cases rest with
  | nil => rfl
  | cons f rs =>
    show isAbsPath (e ++ "/" ++ joinSegStr (f :: rs)) = _
    rw [isAbsPath_append _ _ (by rw [String.data_append]; simp [he]),
      isAbsPath_append _ _ he]

theorem isAbsPath_false_of_seg (e : String) (h1 : e ≠ "") (h2 : noSlash e = true) :
    isAbsPath e = false := by
  unfold isAbsPath
  cases hd : e.data with
  | nil => exact absurd hd (str_data_ne_nil e h1)
  | cons c l =>
    simp only [beq_eq_false_iff_ne, ne_eq]
    intro hc
    unfold noSlash at h2
    simp only [Bool.not_eq_true'] at h2
    rw [List.any_eq_false] at h2
    have := h2 c (by rw [hd]; exact List.mem_cons_self _ _)
    simp [hc] at this

theorem parts_joinSegStr_flat (rest : List String) :
    ∀ a : String, parts (joinSegStr (a :: rest)) = parts a ++ rest.flatMap parts := by
  induction rest with
  | nil => intro a; simp [joinSegStr]
  | cons f rs ih =>
    intro a
    show parts (a ++ "/" ++ joinSegStr (f :: rs)) = _
    rw [parts_append, ih f]
    simp

theorem parts_joinSegStr_of_ok (cs : List String)
    (h : ∀ e ∈ cs, e ≠ "" ∧ noSlash e = true) :
    parts (joinSegStr cs) = cs := by
  induction cs with
  | nil => rfl
  | cons e cs ih =>
    cases cs with
    | nil =>
      exact parts_single e (h e (List.mem_cons_self _ _)).1 (h e (List.mem_cons_self _ _)).2
    | cons f cs' =>
      show parts (e ++ "/" ++ joinSegStr (f :: cs')) = _
      rw [parts_append,
        parts_single e (h e (List.mem_cons_self _ _)).1 (h e (List.mem_cons_self _ _)).2,
        ih (fun x hx => h x (List.mem_cons_of_mem _ hx))]
      rfl

theorem isAbsPath_pathClean (s : String) : isAbsPath (pathClean s) = isAbsPath s := by
  unfold pathClean
  cases habs : isAbsPath s
  case false =>
    cases hcs : cleanSegs false (parts s) with
    | nil => decide
    | cons c cs =>
      have hc : c ≠ "" ∧ noSlash c = true := by
        refine mem_cleanedSegs_ok s c ?_
        unfold cleanedSegs
        rw [habs, hcs]
        exact List.mem_cons_self _ _
      show isAbsPath ((if false = true then "/" else "") ++ joinSegStr (c :: cs)) = false
      rw [show (if false = true then "/" else "") = "" from rfl, empty_append_str,
        isAbsPath_joinSegStr c cs (str_data_ne_nil c hc.1)]
      exact isAbsPath_false_of_seg c hc.1 hc.2
  case true =>
    cases hcs : cleanSegs true (parts s) with
    | nil => decide
    | cons c cs =>
      show isAbsPath ((if true = true then "/" else "") ++ joinSegStr (c :: cs)) = true
      rw [show (if true = true then "/" else "") = "/" from rfl,
        isAbsPath_append _ _ (by decide)]
      decide

theorem parts_pathClean (s : String) (h : cleanedSegs s ≠ []) :
    parts (pathClean s) = cleanedSegs s := by
  unfold pathClean
  cases habs : isAbsPath s
  case false =>
    cases hcs : cleanSegs false (parts s) with
    | nil => exact absurd (by unfold cleanedSegs; rw [habs, hcs]) h
    | cons c cs =>
      have hgoal : cleanedSegs s = c :: cs := by unfold cleanedSegs; rw [habs, hcs]
      have hok : ∀ e ∈ (c :: cs), e ≠ "" ∧ noSlash e = true := by
        intro e he
        exact mem_cleanedSegs_ok s e (by rw [hgoal]; exact he)
      rw [hgoal]
      show parts ((if false = true then "/" else "") ++ joinSegStr (c :: cs)) = c :: cs
      rw [show (if false = true then "/" else "") = "" from rfl, empty_append_str]
      exact parts_joinSegStr_of_ok _ hok
  case true =>
    cases hcs : cleanSegs true (parts s) with
    | nil => exact absurd (by unfold cleanedSegs; rw [habs, hcs]) h
    | cons c cs =>
      have hgoal : cleanedSegs s = c :: cs := by unfold cleanedSegs; rw [habs, hcs]
      have hok : ∀ e ∈ (c :: cs), e ≠ "" ∧ noSlash e = true := by
        intro e he
        exact mem_cleanedSegs_ok s e (by rw [hgoal]; exact he)
      rw [hgoal]
      show parts ((if true = true then "/" else "") ++ joinSegStr (c :: cs)) = c :: cs
      rw [show (if true = true then "/" else "") = "/" from rfl,
        show ("/" : String) ++ joinSegStr (c :: cs) =
          "" ++ "/" ++ joinSegStr (c :: cs) from by rw [empty_append_str],
        parts_append, parts_joinSegStr_of_ok _ hok]
      rfl

theorem joinPath_cons (a : String) (rest : List String) (ha : a ≠ "")
    (hplain : segsPlain (rest.flatMap parts) = true)
    (hne : rest.flatMap parts ≠ []) :
    parts (joinPath (a :: rest)) = cleanedSegs a ++ rest.flatMap parts ∧
      isAbsPath (joinPath (a :: rest)) = isAbsPath a := by
  have hj : joinPath (a :: rest) = pathClean (joinSegStr (a :: rest)) := by
    simp [joinPath, ha]
  have hparts : parts (joinSegStr (a :: rest)) = parts a ++ rest.flatMap parts :=
    parts_joinSegStr_flat rest a
  have habs : isAbsPath (joinSegStr (a :: rest)) = isAbsPath a :=
    isAbsPath_joinSegStr a rest (str_data_ne_nil a ha)
  have hclean : cleanedSegs (joinSegStr (a :: rest)) =
      cleanedSegs a ++ rest.flatMap parts := by
    unfold cleanedSegs
    rw [hparts, habs, cleanSegs_append_plain _ _ _ hplain]
  have hnn : cleanedSegs (joinSegStr (a :: rest)) ≠ [] := by
    rw [hclean]
    intro hc
    exact hne (List.append_eq_nil.mp hc).2
  constructor
  · rw [hj, parts_pathClean _ hnn, hclean]
  · rw [hj, isAbsPath_pathClean, habs]

theorem fsValid_props (s : String) (hv : fsValidPath s = true) (hdot : s ≠ ".") :
    s ≠ "" ∧ isAbsPath s = false ∧ segsPlain (parts s) = true ∧ parts s ≠ [] := by
  unfold fsValidPath at hv
  have hsd : (s == ".") = false := by simp [hdot]
  rw [hsd, Bool.false_or, List.all_eq_true] at hv
  have hne : s ≠ "" := by
    intro h
    subst h
    have := hv "" (by decide)
    simp at this
  refine ⟨hne, ?_, ?_, ?_⟩
  · unfold isAbsPath
    cases hd : s.data with
    | nil => rfl
    | cons c l =>
      simp only [beq_eq_false_iff_ne, ne_eq]
      intro hc
      subst hc
      have : ("" : String) ∈ rawSegs s := by
        unfold rawSegs
        rw [hd, show splitSegs ('/' :: l) = [] :: splitSegs l from by simp [splitSegs]]
        exact List.mem_cons_self _ _
      have := hv _ this
      simp at this
  · unfold segsPlain
    rw [List.all_eq_true]
    intro e he
    have hm : e ∈ rawSegs s := List.mem_of_mem_filter he
    have := hv e hm
    simp only [Bool.and_eq_true, bne_iff_ne] at this ⊢
    exact ⟨this.1.2, this.2⟩
  · have hraw : parts s = rawSegs s := by
      unfold parts
      rw [List.filter_eq_self]
      intro e he
      have := hv e he
      simp only [Bool.and_eq_true] at this
      exact this.1.1
    rw [hraw]
    unfold rawSegs
    intro hmap
    exact splitSegs_ne_nil s.data (List.map_eq_nil_iff.mp hmap)

theorem underDir_joinPath (dst loc : String) (hv : fsValidPath loc = true) :
    underDirB dst (joinPath [dst, loc]) = true := by
  by_cases hdot : loc = "."
  · subst hdot
    by_cases hd : dst = ""
    · subst hd
      decide
    · have hj : joinPath [dst, "."] = pathClean (dst ++ "/" ++ ".") := by
        simp [joinPath, hd, joinSegStr]
      have habs3 : isAbsPath (dst ++ "/" ++ ".") = isAbsPath dst :=
        isAbsPath_append3 dst "." (str_data_ne_nil dst hd)
      have hclean : cleanedSegs (dst ++ "/" ++ ".") = cleanedSegs dst := by
        unfold cleanedSegs
        rw [parts_append, habs3, show parts "." = ["."] from rfl, cleanSegs_append_dot]
      unfold underDirB
      rw [hj, isAbsPath_pathClean, habs3]
      simp only [beq_self_eq_true, Bool.true_and]
      cases hcs : cleanedSegs dst with
      | nil =>
        have hcc : cleanSegs (isAbsPath dst) (parts dst) = [] := by
          have h2 := hcs
          unfold cleanedSegs at h2
          exact h2
        rw [hcc]
        simp [ List.isPrefixOf_iff_prefix]
      | cons c cs =>
        have hpp : parts (pathClean (dst ++ "/" ++ ".")) = cleanedSegs dst := by
          rw [parts_pathClean _ (by rw [hclean, hcs]; simp), hclean]
        have hcc : cleanSegs (isAbsPath dst) (parts dst) = c :: cs := by
          have h2 := hcs
          unfold cleanedSegs at h2
          exact h2
        rw [hpp, hcs, hcc]
        simp [ List.isPrefixOf_iff_prefix]
  · obtain ⟨hne, habs, hplain, hpne⟩ := fsValid_props loc hv hdot
    by_cases hd : dst = ""
    · subst hd
      have hj : joinPath ["", loc] = pathClean (joinSegStr [loc]) := by
        simp [joinPath, hne]
      have hj2 : joinSegStr [loc] = loc := rfl
      have h1 : isAbsPath "" = false := rfl
      have h2 : cleanSegs false (parts "") = [] := rfl
      unfold underDirB
      rw [hj, hj2, isAbsPath_pathClean, habs, h1, h2]
      simp [ List.isPrefixOf_iff_prefix]
    · have hflat : ([loc].flatMap parts) = parts loc := by simp
      obtain ⟨hp, ha⟩ := joinPath_cons dst [loc] hd (by rw [hflat]; exact hplain)
        (by rw [hflat]; exact hpne)
      unfold underDirB
      rw [hp, ha, hflat]
      unfold cleanedSegs
      simp [ List.isPrefixOf_iff_prefix, List.prefix_append]

/-! ## Lemmas about localization and extraction -/

theorem fsValid_false_of_leadsParent (s : String) (h : leadsParentDir s = true) :
    fsValidPath s = false := by
  have hdot : s ≠ "." := by
    intro hs
    subst hs
    exact absurd h (by decide)
  have hdd : (".." : String) ∈ parts s := by
    unfold leadsParentDir at h
    cases hp : parts s with
    | nil => rw [hp] at h; simp at h
    | cons e es =>
      rw [hp] at h
      simp only [beq_iff_eq] at h
      rw [h]
      exact List.mem_cons_self _ _
  have hmem : (".." : String) ∈ rawSegs s := List.mem_of_mem_filter hdd
  unfold fsValidPath
  rw [show (s == ".") = false from by simp [hdot]]
  simp only [Bool.false_or]
  rw [Bool.eq_false_iff]
  intro hall
  rw [List.all_eq_true] at hall
  have := hall _ hmem
  simp at this

theorem fsValid_false_of_isAbs (s : String) (h : isAbsPath s = true) :
    fsValidPath s = false := by
  have hdot : s ≠ "." := by
    intro hs
    subst hs
    exact absurd h (by decide)
  unfold isAbsPath at h
  cases hd : s.data with
  | nil => rw [hd] at h; simp at h
  | cons c l =>
    rw [hd] at h
    simp only [beq_iff_eq] at h
    subst h
    have hmem : ("" : String) ∈ rawSegs s := by
      unfold rawSegs
      rw [hd, show splitSegs ('/' :: l) = [] :: splitSegs l from by simp [splitSegs]]
      exact List.mem_cons_self _ _
    unfold fsValidPath
    rw [show (s == ".") = false from by simp [hdot]]
    simp only [Bool.false_or]
    rw [Bool.eq_false_iff]
    intro hall
    rw [List.all_eq_true] at hall
    have := hall _ hmem
    simp at this

theorem localize_unix_ok (s t : String)
    (h : localizeOS TargetOS.unixLike s = Except.ok t) :
    t = s ∧ fsValidPath s = true := by
  unfold localizeOS at h
  by_cases hv : fsValidPath s
  · rw [if_neg (by simp [hv])] at h
    by_cases hn : s.data.any (fun c => c = Char.ofNat 0)
    · rw [if_pos hn] at h
      simp at h
    · rw [if_neg hn] at h
      injection h with h'
      exact ⟨h'.symm, hv⟩
  · rw [if_pos (by simp [hv])] at h
    simp at h

theorem localize_unix_err (s : String) (h : escapeLikeUnix s = true) :
    isErr (localizeOS TargetOS.unixLike s) = true := by
  have hv : fsValidPath s = false := by
    unfold escapeLikeUnix at h
    simp only [Bool.or_eq_true] at h
    rcases h with h1 | h2
    · exact fsValid_false_of_leadsParent s h1
    · exact fsValid_false_of_isAbs s h2
  unfold localizeOS
  rw [if_pos (by simp [hv])]
  rfl

theorem localize_windows_err (s : String) (h : escapeLike s = true) :
    isErr (localizeOS TargetOS.windows s) = true := by
  unfold localizeOS
  by_cases hv : fsValidPath s
  · rw [if_neg (by simp [hv])]
    have hdc : hasDriveColon s = true := by
      unfold escapeLike at h
      simp only [Bool.or_eq_true] at h
      rcases h with (h1 | h2) | h3
      · exact absurd (fsValid_false_of_leadsParent s h1) (by simp [hv])
      · exact absurd (fsValid_false_of_isAbs s h2) (by simp [hv])
      · exact h3
    have hany : s.data.any (fun c => c = ':' || c = '\\' || c = Char.ofNat 0) = true := by
      unfold hasDriveColon at hdc
      cases hd : s.data with
      | nil => rw [hd] at hdc; simp at hdc
      | cons c rest =>
        cases rest with
        | nil => rw [hd] at hdc; simp at hdc
        | cons d rest' =>
          rw [hd] at hdc
          simp only [Bool.and_eq_true, decide_eq_true_eq] at hdc
          apply List.any_eq_true.mpr
          refine ⟨d, ?_, ?_⟩
          · exact List.mem_cons_of_mem _ (List.mem_cons_self _ _)
          · simp [hdc.2]
    rw [if_pos hany]
    rfl
  · rw [if_pos (by simp [hv])]
    rfl

theorem unzipEntry_writes (pfxSlash dst : String) (e : ZipEntry) (env : EntryEnv) :
    ∀ p ∈ (unzipEntry pfxSlash dst e env).1, underDirB dst p = true := by
  intro p hp
  unfold unzipEntry at hp
  split at hp
  · simp at hp
  · split at hp
    · simp at hp
    · rename_i loc hloc
      obtain ⟨rfl, hvalid⟩ := localize_unix_ok _ _ hloc
      have hu : underDirB dst
          (joinPath [dst, trimPrefix (pathClean e.name) pfxSlash]) = true :=
        underDir_joinPath _ _ hvalid
      split at hp <;> (try split at hp) <;> (try split at hp) <;>
        (try split at hp) <;> simp at hp <;> rw [hp] <;> exact hu

theorem unzipLoop_writes (pfxSlash dst : String)
    (entries : List (ZipEntry × EntryEnv)) :
    ∀ p ∈ (unzipLoop pfxSlash dst entries).1, underDirB dst p = true := by
  induction entries with
  | nil => intro p hp; simp [unzipLoop] at hp
  | cons pr rest ih =>
    intro p hp
    obtain ⟨e, env⟩ := pr
    unfold unzipLoop at hp
    split at hp
    · rename_i ws err hE
      exact unzipEntry_writes pfxSlash dst e env p (by rw [hE]; exact hp)
    · rename_i ws hE
      simp only [List.mem_append] at hp
      rcases hp with hw | hw
      · exact unzipEntry_writes pfxSlash dst e env p (by rw [hE]; exact hw)
      · exact ih p hw

theorem unzip_writes (openOk : Bool) (pfx dst : String)
    (entries : List (ZipEntry × EntryEnv)) :
    ∀ p ∈ (unzip openOk pfx dst entries).1, underDirB dst p = true := by
  intro p hp
  unfold unzip at hp
  by_cases h : openOk
  · rw [if_neg (by simp [h])] at hp
    exact unzipLoop_writes _ _ _ p hp
  · rw [if_pos (by simp [h])] at hp
    simp at hp

theorem unzipEntry_err_of_bad (pfxSlash dst : String) (e : ZipEntry) (env : EntryEnv)
    (hbad : escapeLikeUnix (trimPrefix (pathClean e.name) pfxSlash) = true) :
    (unzipEntry pfxSlash dst e env).2.isSome = true := by
  have herr := localize_unix_err _ hbad
  unfold unzipEntry
  split
  · rfl
  · split
    · rfl
    · rename_i loc hloc
      rw [hloc] at herr
      simp [isErr] at herr

theorem unzipLoop_err_of_bad (pfxSlash dst : String)
    (entries : List (ZipEntry × EntryEnv)) (e : ZipEntry) (env : EntryEnv)
    (hmem : (e, env) ∈ entries)
    (hbad : escapeLikeUnix (trimPrefix (pathClean e.name) pfxSlash) = true) :
    (unzipLoop pfxSlash dst entries).2.isSome = true := by
  induction entries with
  | nil => simp at hmem
  | cons pr rest ih =>
    obtain ⟨f, fenv⟩ := pr
    unfold unzipLoop
    split
    · rfl
    · rename_i ws hE
      rcases List.mem_cons.mp hmem with heq | htail
      · injection heq with he henv
        subst he
        subst henv
        have hc := unzipEntry_err_of_bad pfxSlash dst e env hbad
        rw [hE] at hc
        simp at hc
      · show (unzipLoop pfxSlash dst rest).2.isSome = true
        exact ih htail

theorem unzip_err_of_bad (openOk : Bool) (pfx dst : String)
    (entries : List (ZipEntry × EntryEnv)) (e : ZipEntry) (env : EntryEnv)
    (hmem : (e, env) ∈ entries)
    (hbad : escapeLikeUnix (strippedName pfx e.name) = true) :
    (unzip openOk pfx dst entries).2.isSome = true := by
  unfold strippedName at hbad
  unfold unzip
  by_cases h : openOk
  · rw [if_neg (by simp [h])]
    exact unzipLoop_err_of_bad _ _ _ e env hmem hbad
  · rw [if_pos (by simp [h])]
    rfl

/-! ## Helper lemmas for the cache claims -/

theorem simpleSeg_props (u : String) (hu : simpleSeg u = true) :
    u ≠ "" ∧ u ≠ "." ∧ u ≠ ".." ∧ noSlash u = true := by
  unfold simpleSeg at hu
  simp only [Bool.and_eq_true, bne_iff_ne] at hu
  refine ⟨hu.1.1.1, hu.1.1.2, hu.1.2, ?_⟩
  unfold noSlash
  exact hu.2

theorem joinPath_pair_parts (t u : String) (hu : simpleSeg u = true) :
    parts (joinPath [t, u]) = cleanedSegs t ++ [u] ∧
      isAbsPath (joinPath [t, u]) = isAbsPath t := by
  obtain ⟨hne, hdot, hddot, hns⟩ := simpleSeg_props u hu
  have hparts : parts u = [u] := parts_single u hne hns
  by_cases ht : t = ""
  · subst ht
    have hj : joinPath ["", u] = pathClean u := by
      simp [joinPath, hne, joinSegStr]
    have hclean : cleanedSegs u = [u] := by
      unfold cleanedSegs cleanSegs
      rw [hparts, isAbsPath_false_of_seg u hne hns,
        cleanAux_plain _ _ _ (by simp [segsPlain, hdot, hddot])]
      simp
    constructor
    · rw [hj, parts_pathClean u (by rw [hclean]; simp), hclean]
      simp [cleanedSegs]
      rfl
    · rw [hj, isAbsPath_pathClean, isAbsPath_false_of_seg u hne hns]
      rfl
  · have hflat : [u].flatMap parts = [u] := by simp [hparts]
    have h := joinPath_cons t [u] ht
      (by rw [hflat]; simp [segsPlain, hdot, hddot])
      (by rw [hflat]; simp)
    rw [hflat] at h
    exact h

theorem channel_seg (c : Channel) :
    parts c.str = [c.str] ∧ c.str ≠ "." ∧ c.str ≠ ".." := by
  cases c <;> exact ⟨by decide, by decide, by decide⟩

theorem joinPath_parts5 (cd t1 t2 t3 t4 : String) (hcd : cd ≠ "")
    (h1 : parts t1 = [t1] ∧ t1 ≠ "." ∧ t1 ≠ "..")
    (h2 : parts t2 = [t2] ∧ t2 ≠ "." ∧ t2 ≠ "..")
    (h3 : parts t3 = [t3] ∧ t3 ≠ "." ∧ t3 ≠ "..")
    (h4 : parts t4 = [t4] ∧ t4 ≠ "." ∧ t4 ≠ "..") :
    parts (joinPath [cd, t1, t2, t3, t4]) = cleanedSegs cd ++ [t1, t2, t3, t4] ∧
      isAbsPath (joinPath [cd, t1, t2, t3, t4]) = isAbsPath cd := by
  have hflat : [t1, t2, t3, t4].flatMap parts = [t1, t2, t3, t4] := by
    simp [h1.1, h2.1, h3.1, h4.1]
  have h := joinPath_cons cd [t1, t2, t3, t4] hcd
    (by rw [hflat]
        simp [segsPlain, h1.2.1, h1.2.2, h2.2.1, h2.2.2, h3.2.1, h3.2.2, h4.2.1, h4.2.2])
    (by rw [hflat]; simp)
  rw [hflat] at h
  exact h

theorem joinPath_parts6 (cd t1 t2 t3 t4 bin : String) (hcd : cd ≠ "")
    (h1 : parts t1 = [t1] ∧ t1 ≠ "." ∧ t1 ≠ "..")
    (h2 : parts t2 = [t2] ∧ t2 ≠ "." ∧ t2 ≠ "..")
    (h3 : parts t3 = [t3] ∧ t3 ≠ "." ∧ t3 ≠ "..")
    (h4 : parts t4 = [t4] ∧ t4 ≠ "." ∧ t4 ≠ "..")
    (hb : segsPlain (parts bin) = true) :
    parts (joinPath [cd, t1, t2, t3, t4, bin]) =
      (cleanedSegs cd ++ [t1, t2, t3, t4]) ++ parts bin ∧
      isAbsPath (joinPath [cd, t1, t2, t3, t4, bin]) = isAbsPath cd := by
  have hflat : [t1, t2, t3, t4, bin].flatMap parts = [t1, t2, t3, t4] ++ parts bin := by
    simp [h1.1, h2.1, h3.1, h4.1]
  have hplain : segsPlain ([t1, t2, t3, t4] ++ parts bin) = true := by
    unfold segsPlain
    rw [List.all_append]
    simp only [Bool.and_eq_true]
    constructor
    · simp [segsPlain, h1.2.1, h1.2.2, h2.2.1, h2.2.2, h3.2.1, h3.2.2, h4.2.1, h4.2.2]
    · exact hb
  have h := joinPath_cons cd [t1, t2, t3, t4, bin] hcd
    (by rw [hflat]; exact hplain)
    (by rw [hflat]; simp)
  rw [hflat] at h
  refine ⟨?_, h.2⟩
  rw [h.1, List.append_assoc]

/-! ## Claim theorems -/

/-- C1 (amended): in `browser.init`, the terminate-by-binary-path
fallback is never invoked in any execution (the source never calls
`terminateProcessByPath`), and when the profile wait fails the only
error the termination path can surface is the lock-file-still-present
timeout — survival of the PID after the interrupt-then-kill attempt is
logged but neither triggers a fallback nor fails the operation. -/
theorem claim_c1_amended : ∀ env : InitEnv,
    Action.terminateByPath ∉ (browserInit env).1 ∧
    (env.startOk = true → waitForProfile env.profileStats = false →
      ((browserInit env).2 = some InitError.lockStillPresent ↔
        waitForLockFileRemoval env.lockStats = false)) := by
  intro env
  unfold browserInit
  by_cases h1 : env.startOk <;> by_cases h2 : waitForProfile env.profileStats <;>
    by_cases h3 : waitForLockFileRemoval env.lockStats <;> simp [h1, h2, h3]

/-- Witness for C1: a concrete run through the timeout path. -/
theorem claim_c1_amended_witness :
    Action.terminateByPath ∉
      (browserInit ⟨true, [], false, false, [LockRes.presentRes]⟩).1 ∧
    ((browserInit ⟨true, [], false, false, [LockRes.presentRes]⟩).2 =
        some InitError.lockStillPresent ↔
      waitForLockFileRemoval [LockRes.presentRes] = false) :=
  ⟨(claim_c1_amended ⟨true, [], false, false, [LockRes.presentRes]⟩).1,
   (claim_c1_amended ⟨true, [], false, false, [LockRes.presentRes]⟩).2 rfl rfl⟩

/-- Counterexample to C1 as stated: a run in which the profile wait
times out and the process survives the interrupt-then-kill stage
(`IsStopped` reports it still running), yet `init` invokes no
terminate-by-path fallback and returns success once the lock file is
observed gone. -/
theorem claim_c1_counterexample :
    waitForProfileOutcome ([] : List StatRes) = ProfileOutcome.timedOut ∧
    (browserInit ⟨true, [], false, false, [LockRes.goneRes]⟩).2 = none ∧
    Action.terminateByPath ∉
      (browserInit ⟨true, [], false, false, [LockRes.goneRes]⟩).1 := by
  refine ⟨rfl, rfl, ?_⟩
  decide

/-- C4 (amended): `browser.init` attempts termination exactly when the
start succeeded and the profile wait returned failure — an outcome
produced both by the timeout and by the hard not-a-directory failure —
and never when the wait succeeded; when attempted, the kill follows
the wait in the fixed call order. -/
theorem claim_c4_amended : ∀ env : InitEnv,
    (Action.signalAndWait ∈ (browserInit env).1 ↔
      env.startOk = true ∧ waitForProfile env.profileStats = false) ∧
    (Action.signalAndWait ∈ (browserInit env).1 →
      (browserInit env).1 = [Action.startCmd, Action.waitProfile,
        Action.signalAndWait, Action.checkStopped, Action.waitLock]) := by
  intro env
  unfold browserInit
  by_cases h1 : env.startOk <;> by_cases h2 : waitForProfile env.profileStats <;>
    simp [h1, h2]

/-- Witness for C4: a concrete timed-out run entering the termination
phase after the wait. -/
theorem claim_c4_amended_witness :
    Action.signalAndWait ∈
      (browserInit ⟨true, [], false, true, [LockRes.goneRes]⟩).1 ∧
    (browserInit ⟨true, [], false, true, [LockRes.goneRes]⟩).1 =
      [Action.startCmd, Action.waitProfile, Action.signalAndWait,
        Action.checkStopped, Action.waitLock] :=
  have h := claim_c4_amended ⟨true, [], false, true, [LockRes.goneRes]⟩
  ⟨h.1.mpr ⟨rfl, rfl⟩, h.2 (h.1.mpr ⟨rfl, rfl⟩)⟩

/-- Counterexample to C4 as stated: when the first stat sees a
non-directory, the wait concludes with the hard failure — not
`ProfileTimeout` — and the termination escalation is entered anyway. -/
theorem claim_c4_counterexample :
    waitForProfileOutcome [StatRes.notDirRes] = ProfileOutcome.hardFail ∧
    waitForProfileOutcome [StatRes.notDirRes] ≠ ProfileOutcome.timedOut ∧
    Action.signalAndWait ∈
      (browserInit ⟨true, [StatRes.notDirRes], false, true, [LockRes.goneRes]⟩).1 := by
  refine ⟨rfl, by decide, by decide⟩

/-- C5: when the profile wait fails and the lock file is still present
after its own timeout, `init` returns the lock-file error — for every
outcome of the kill attempt, including a fully successful one (no
`SignalAndWait` error, `IsStopped` true) — so the surfaced failure is
the lock-file check, not the termination attempt. -/
theorem claim_c5 : ∀ (ps : List StatRes) (ls : List LockRes) (se st : Bool),
    waitForProfile ps = false →
    waitForLockFileRemoval ls = false →
    (browserInit ⟨true, ps, se, st, ls⟩).2 = some InitError.lockStillPresent := by
  intro ps ls se st h1 h2
  unfold browserInit
  simp [h1, h2]

/-- Witness for C5: a concrete run with a successful kill whose lock
wait still fails. -/
theorem claim_c5_witness :
    (browserInit ⟨true, [], false, true, [LockRes.presentRes]⟩).2 =
      some InitError.lockStillPresent :=
  claim_c5 [] [LockRes.presentRes] false true rfl rfl

/-- C7: after any run of retryable polls (not-exists or stat errors),
a stat seeing a non-directory makes `waitForProfile` return false
regardless of every later poll (no further iterations), with the
distinct hard-failure exit rather than the timeout exit; a stat seeing
a directory returns true at once; and retryable polls alone never
produce an early exit (the wait runs to its deadline). -/
theorem claim_c7 : ∀ (pre rest : List StatRes),
    (∀ e ∈ pre, e = StatRes.notExistRes ∨ e = StatRes.statErrRes) →
    waitForProfile (pre ++ StatRes.notDirRes :: rest) = false ∧
    waitForProfileOutcome (pre ++ StatRes.notDirRes :: rest) = ProfileOutcome.hardFail ∧
    waitForProfile (pre ++ StatRes.isDirRes :: rest) = true ∧
    waitForProfile pre = false := by
  intro pre rest h
  induction pre with
  | nil => exact ⟨rfl, rfl, rfl, rfl⟩
  | cons e pre ih =>
    have he := h e (List.mem_cons_self _ _)
    have ih' := ih (fun x hx => h x (List.mem_cons_of_mem _ hx))
    rcases he with he | he <;> subst he <;> exact ih'

/-- Witness for C7 at a concrete poll sequence. -/
theorem claim_c7_witness :
    waitForProfile ([StatRes.notExistRes] ++ StatRes.notDirRes ::
      [StatRes.isDirRes]) = false ∧
    waitForProfileOutcome ([StatRes.notExistRes] ++ StatRes.notDirRes ::
      [StatRes.isDirRes]) = ProfileOutcome.hardFail ∧
    waitForProfile ([StatRes.notExistRes] ++ StatRes.isDirRes ::
      [StatRes.isDirRes]) = true ∧
    waitForProfile [StatRes.notExistRes] = false :=
  claim_c7 [StatRes.notExistRes] [StatRes.isDirRes] (by decide)

/-- C3: `applicationPaths` reads only the application, channel and
platform of a `SelectedDownload` (besides the cache root), so two
selections agreeing on that triple — whatever their download URL,
version, revision or prefix — resolve to identical results on the same
`toolCache`. -/
theorem claim_c3 : ∀ (tc : toolCache) (sd1 sd2 : SelectedDownload),
    sd1.application = sd2.application → sd1.channel = sd2.channel →
    sd1.platform = sd2.platform →
    applicationPaths tc sd1 = applicationPaths tc sd2 := by
  intro tc sd1 sd2 h1 h2 h3
  unfold applicationPaths
  rw [h1, h2, h3]

/-- Witness for C3: two selections differing in URL, version, revision
and prefix resolve identically. -/
theorem claim_c3_witness :
    applicationPaths ⟨"/t", "/c", true⟩
        ⟨Platform.linux64, Channel.stable, Application.chrome,
          ⟨"linux64", "https://a"⟩, "1.0", "r1", "p1"⟩ =
      applicationPaths ⟨"/t", "/c", true⟩
        ⟨Platform.linux64, Channel.stable, Application.chrome,
          ⟨"linux64", "https://b"⟩, "2.0", "r2", "p2"⟩ :=
  claim_c3 ⟨"/t", "/c", true⟩ _ _ rfl rfl rfl

/-- C6: `downloadPath` in uuid mode ignores the URL (its output
depends only on the generated identifier), and distinct generated
identifiers give distinct paths; in content-hash mode the output
ignores the uuid oracle entirely and is a pure function of the URL. -/
theorem claim_c6 : ∀ (tc : toolCache) (u u1 u2 url url1 url2 : String)
    (r1 r2 : Except String String),
    (tc.uuidMode = true →
      downloadPath tc (Except.ok u) url1 = downloadPath tc (Except.ok u) url2) ∧
    (tc.uuidMode = true → simpleSeg u1 = true → simpleSeg u2 = true → u1 ≠ u2 →
      downloadPath tc (Except.ok u1) url ≠ downloadPath tc (Except.ok u2) url) ∧
    (tc.uuidMode = false →
      downloadPath tc r1 url = downloadPath tc r2 url) := by
  intro tc u u1 u2 url url1 url2 r1 r2
  refine ⟨?_, ?_, ?_⟩
  · intro hm
    unfold downloadPath
    simp [hm]
  · intro hm h1 h2 hne heq
    unfold downloadPath at heq
    rw [if_pos hm, if_pos hm] at heq
    injection heq with heq
    have e1 := (joinPath_pair_parts tc.tempDir u1 h1).1
    have e2 := (joinPath_pair_parts tc.tempDir u2 h2).1
    rw [heq, e2] at e1
    have := List.append_cancel_left e1
    injection this with hu
    exact hne hu.symm
  · intro hm
    unfold downloadPath
    simp [hm]

/-- Witness for C6 at concrete identifiers and URLs. -/
theorem claim_c6_witness :
    downloadPath ⟨"/t", "/c", true⟩ (Except.ok "aa") "urlA" =
      downloadPath ⟨"/t", "/c", true⟩ (Except.ok "aa") "urlB" ∧
    downloadPath ⟨"/t", "/c", true⟩ (Except.ok "aa") "url" ≠
      downloadPath ⟨"/t", "/c", true⟩ (Except.ok "bb") "url" ∧
    downloadPath ⟨"/t", "/c", false⟩ (Except.ok "aa") "url" =
      downloadPath ⟨"/t", "/c", false⟩ (Except.error "rng failed") "url" :=
  have h := claim_c6 ⟨"/t", "/c", true⟩ "aa" "aa" "bb" "url" "urlA" "urlB"
    (Except.ok "aa") (Except.ok "aa")
  have h2 := claim_c6 ⟨"/t", "/c", false⟩ "aa" "aa" "bb" "url" "urlA" "urlB"
    (Except.ok "aa") (Except.error "rng failed")
  ⟨h.1 rfl, h.2.1 rfl (by decide) (by decide) (by decide), h2.2.2 rfl⟩

/-- C8: `applicationPaths` succeeds exactly when an `installSpec`
exists for the (application, platform) pair; when the application has
no spec table the error message quotes the application name, and when
the platform is missing from the chosen table the error message quotes
the platform name. -/
theorem claim_c8 : ∀ (tc : toolCache) (sd : SelectedDownload),
    (hasInstallSpec sd.application sd.platform = true →
      isErr (applicationPaths tc sd) = false) ∧
    (hasInstallSpec sd.application sd.platform = false →
      isErr (applicationPaths tc sd) = true) ∧
    (installSpecsFor sd.application = none →
      applicationPaths tc sd =
        Except.error ("unknown application \"" ++ sd.application.str ++ "\"")) ∧
    (∀ specs, installSpecsFor sd.application = some specs →
      specs sd.platform = none →
      applicationPaths tc sd =
        Except.error ("no install spec for platform \"" ++ sd.platform.str ++ "\"")) := by
  intro tc sd
  rcases sd with ⟨p, c, a, dl, v, rv, px⟩
  cases a <;> cases p <;>
    simp [hasInstallSpec, installSpecsFor, applicationPaths, isErr,
      chromeInstallSpecs, chromeDriverInstallSpecs]

/-- Witness for C8: the supported chrome/linux64 pair succeeds; the
application without a table and the platform without a spec fail with
messages naming them. -/
theorem claim_c8_witness :
    isErr (applicationPaths ⟨"/t", "/c", true⟩
        ⟨Platform.linux64, Channel.stable, Application.chrome,
          ⟨"linux64", "u"⟩, "v", "r", "x"⟩) = false ∧
    applicationPaths ⟨"/t", "/c", true⟩
        ⟨Platform.linux64, Channel.stable, Application.chromeHeadlessShell,
          ⟨"linux64", "u"⟩, "v", "r", "x"⟩ =
      Except.error ("unknown application \"" ++
        Application.chromeHeadlessShell.str ++ "\"") ∧
    applicationPaths ⟨"/t", "/c", true⟩
        ⟨Platform.macX64, Channel.stable, Application.chrome,
          ⟨"mac-x64", "u"⟩, "v", "r", "x"⟩ =
      Except.error ("no install spec for platform \"" ++ Platform.macX64.str ++ "\"") :=
  ⟨(claim_c8 ⟨"/t", "/c", true⟩ _).1 rfl,
   (claim_c8 ⟨"/t", "/c", true⟩ _).2.2.1 rfl,
   (claim_c8 ⟨"/t", "/c", true⟩ _).2.2.2 chromeInstallSpecs rfl rfl⟩

/-- C9 (amended): for every pair with an `installSpec`, the install
directory consists of the cleaned cache-root segments followed by
exactly the four segments "setup-chrome", application, channel and
architecture — the layout carries a fixed `setup-chrome` segment
between the cache root and the application — and the binary path is
the install directory extended by the spec's relative binary
segments; rootedness follows the cache root. -/
theorem claim_c9_amended : ∀ (tc : toolCache) (sd : SelectedDownload)
    (specs : Platform → Option installSpec) (sp : installSpec),
    tc.cacheDir ≠ "" →
    installSpecsFor sd.application = some specs →
    specs sd.platform = some sp →
    ∃ b inst, applicationPaths tc sd = Except.ok (sp.fromDir, b, inst) ∧
      parts inst = cleanedSegs tc.cacheDir ++
        ["setup-chrome", sd.application.str, sd.channel.str, sp.toDir] ∧
      isAbsPath inst = isAbsPath tc.cacheDir ∧
      parts b = parts inst ++ parts sp.binary ∧
      isAbsPath b = isAbsPath tc.cacheDir := by
  intro tc sd specs sp hcd hspecs hsp
  rcases sd with ⟨p, c, a, dl, v, rv, px⟩
  cases a
  case chromeHeadlessShell => simp [installSpecsFor] at hspecs
  case chrome =>
    simp only [installSpecsFor, Option.some.injEq] at hspecs
    subst hspecs
    cases p
    case macX64 => simp [chromeInstallSpecs] at hsp
    case linux64 =>
      simp only [chromeInstallSpecs, Option.some.injEq] at hsp
      subst hsp
      have h5 := joinPath_parts5 tc.cacheDir "setup-chrome" "chrome" c.str "x64" hcd
        ⟨by decide, by decide, by decide⟩ ⟨by decide, by decide, by decide⟩
        (channel_seg c) ⟨by decide, by decide, by decide⟩
      have h6 := joinPath_parts6 tc.cacheDir "setup-chrome" "chrome" c.str "x64"
        "chrome" hcd
        ⟨by decide, by decide, by decide⟩ ⟨by decide, by decide, by decide⟩
        (channel_seg c) ⟨by decide, by decide, by decide⟩ (by decide)
      exact ⟨_, _, rfl, h5.1, h5.2, h6.1.trans (congrArg (fun x => x ++ _) h5.1.symm), h6.2⟩
    case win64 =>
      simp only [chromeInstallSpecs, Option.some.injEq] at hsp
      subst hsp
      have h5 := joinPath_parts5 tc.cacheDir "setup-chrome" "chrome" c.str "x64" hcd
        ⟨by decide, by decide, by decide⟩ ⟨by decide, by decide, by decide⟩
        (channel_seg c) ⟨by decide, by decide, by decide⟩
      have h6 := joinPath_parts6 tc.cacheDir "setup-chrome" "chrome" c.str "x64"
        "chrome.exe" hcd
        ⟨by decide, by decide, by decide⟩ ⟨by decide, by decide, by decide⟩
        (channel_seg c) ⟨by decide, by decide, by decide⟩ (by decide)
      exact ⟨_, _, rfl, h5.1, h5.2, h6.1.trans (congrArg (fun x => x ++ _) h5.1.symm), h6.2⟩
    case macArm64 =>
      simp only [chromeInstallSpecs, Option.some.injEq] at hsp
      subst hsp
      have h5 := joinPath_parts5 tc.cacheDir "setup-chrome" "chrome" c.str
        (joinPath ["x64"]) hcd
        ⟨by decide, by decide, by decide⟩ ⟨by decide, by decide, by decide⟩
        (channel_seg c) ⟨by decide, by decide, by decide⟩
      have h6 := joinPath_parts6 tc.cacheDir "setup-chrome" "chrome" c.str
        (joinPath ["x64"])
        (joinPath ["Google Chrome for Testing.app", "Contents", "MacOS",
          "Google Chrome for Testing"]) hcd
        ⟨by decide, by decide, by decide⟩ ⟨by decide, by decide, by decide⟩
        (channel_seg c) ⟨by decide, by decide, by decide⟩ (by decide)
      exact ⟨_, _, rfl, h5.1, h5.2, h6.1.trans (congrArg (fun x => x ++ _) h5.1.symm), h6.2⟩
  case chromedriver =>
    simp only [installSpecsFor, Option.some.injEq] at hspecs
    subst hspecs
    cases p
    case macX64 => simp [chromeDriverInstallSpecs] at hsp
    case linux64 =>
      simp only [chromeDriverInstallSpecs, Option.some.injEq] at hsp
      subst hsp
      have h5 := joinPath_parts5 tc.cacheDir "setup-chrome" "chromedriver" c.str
        "x64" hcd
        ⟨by decide, by decide, by decide⟩ ⟨by decide, by decide, by decide⟩
        (channel_seg c) ⟨by decide, by decide, by decide⟩
      have h6 := joinPath_parts6 tc.cacheDir "setup-chrome" "chromedriver" c.str
        "x64" "chromedriver" hcd
        ⟨by decide, by decide, by decide⟩ ⟨by decide, by decide, by decide⟩
        (channel_seg c) ⟨by decide, by decide, by decide⟩ (by decide)
      exact ⟨_, _, rfl, h5.1, h5.2, h6.1.trans (congrArg (fun x => x ++ _) h5.1.symm), h6.2⟩
    case win64 =>
      simp only [chromeDriverInstallSpecs, Option.some.injEq] at hsp
      subst hsp
      have h5 := joinPath_parts5 tc.cacheDir "setup-chrome" "chromedriver" c.str
        "x64" hcd
        ⟨by decide, by decide, by decide⟩ ⟨by decide, by decide, by decide⟩
        (channel_seg c) ⟨by decide, by decide, by decide⟩
      have h6 := joinPath_parts6 tc.cacheDir "setup-chrome" "chromedriver" c.str
        "x64" "chromedriver.exe" hcd
        ⟨by decide, by decide, by decide⟩ ⟨by decide, by decide, by decide⟩
        (channel_seg c) ⟨by decide, by decide, by decide⟩ (by decide)
      exact ⟨_, _, rfl, h5.1, h5.2, h6.1.trans (congrArg (fun x => x ++ _) h5.1.symm), h6.2⟩
    case macArm64 =>
      simp only [chromeDriverInstallSpecs, Option.some.injEq] at hsp
      subst hsp
      have h5 := joinPath_parts5 tc.cacheDir "setup-chrome" "chromedriver" c.str
        "x64" hcd
        ⟨by decide, by decide, by decide⟩ ⟨by decide, by decide, by decide⟩
        (channel_seg c) ⟨by decide, by decide, by decide⟩
      have h6 := joinPath_parts6 tc.cacheDir "setup-chrome" "chromedriver" c.str
        "x64" "chromedriver" hcd
        ⟨by decide, by decide, by decide⟩ ⟨by decide, by decide, by decide⟩
        (channel_seg c) ⟨by decide, by decide, by decide⟩ (by decide)
      exact ⟨_, _, rfl, h5.1, h5.2, h6.1.trans (congrArg (fun x => x ++ _) h5.1.symm), h6.2⟩

/-- Witness for C9 at a concrete cache root and selection. -/
theorem claim_c9_amended_witness :
    ∃ b inst, applicationPaths ⟨"/t", "/c", true⟩
        ⟨Platform.linux64, Channel.stable, Application.chrome,
          ⟨"linux64", "u"⟩, "v", "r", "x"⟩ =
      Except.ok (installSpec.fromDir ⟨"chrome-linux64", "x64", "chrome"⟩, b, inst) ∧
      parts inst = cleanedSegs "/c" ++ ["setup-chrome", "chrome", "stable", "x64"] ∧
      isAbsPath inst = isAbsPath "/c" ∧
      parts b = parts inst ++ parts "chrome" ∧
      isAbsPath b = isAbsPath "/c" :=
  claim_c9_amended ⟨"/t", "/c", true⟩
    ⟨Platform.linux64, Channel.stable, Application.chrome, ⟨"linux64", "u"⟩,
      "v", "r", "x"⟩
    chromeInstallSpecs ⟨"chrome-linux64", "x64", "chrome"⟩
    (by decide) rfl rfl

/-- Counterexample to C9 as stated: the install directory is not
`<cacheRoot>/<application>/<channel>/<arch>` — the code inserts a
`setup-chrome` segment after the cache root. -/
theorem claim_c9_counterexample :
    applicationPaths ⟨"/tmp", "/cache", false⟩
        ⟨Platform.linux64, Channel.stable, Application.chrome,
          ⟨"linux64", "u"⟩, "v", "r", "x"⟩ =
      Except.ok ("chrome-linux64", "/cache/setup-chrome/chrome/stable/x64/chrome",
        "/cache/setup-chrome/chrome/stable/x64") ∧
    ("/cache/setup-chrome/chrome/stable/x64" : String) ≠
      joinPath ["/cache", "chrome", "stable", "x64"] := by
  exact ⟨rfl, by decide⟩

/-- C2 (amended): extraction never hands the filesystem a destination
path outside `destDir` (every attempted create target, cleaned, lies
under the cleaned destination); an entry whose cleaned, prefix-stripped
name has a leading ".." or is absolute (leading separator) makes the
whole `unzip` fail on every build; and the windows localization also
rejects drive-letter names, which on unix builds are ordinary relative
names. -/
theorem claim_c2_amended : ∀ (openOk : Bool) (pfx dst : String)
    (entries : List (ZipEntry × EntryEnv)) (e : ZipEntry) (env : EntryEnv)
    (s : String),
    (∀ p ∈ (unzip openOk pfx dst entries).1, underDirB dst p = true) ∧
    ((e, env) ∈ entries → escapeLikeUnix (strippedName pfx e.name) = true →
      (unzip openOk pfx dst entries).2.isSome = true) ∧
    (escapeLike s = true → isErr (localizeOS TargetOS.windows s) = true) ∧
    (escapeLikeUnix s = true → isErr (localizeOS TargetOS.unixLike s) = true) := by
  intro openOk pfx dst entries e env s
  exact ⟨unzip_writes openOk pfx dst entries,
    fun hmem hbad => unzip_err_of_bad openOk pfx dst entries e env hmem hbad,
    fun h => localize_windows_err s h,
    fun h => localize_unix_err s h⟩

/-- Witness for C2: a good entry extracts under the destination, a
traversal entry aborts the extraction, and the localizers reject the
escape shapes. -/
theorem claim_c2_amended_witness :
    underDirB "/dest" "/dest/chrome" = true ∧
    (unzip true "chrome-linux64" "/dest"
        [(⟨"../escape.txt", false, 5⟩,
          ⟨true, OpenFileRes.opened, true, true, some 5, true, true⟩)]).2.isSome =
      true ∧
    isErr (localizeOS TargetOS.windows "C:/x") = true ∧
    isErr (localizeOS TargetOS.unixLike "../escape.txt") = true :=
  have hgood := claim_c2_amended true "chrome-linux64" "/dest"
    [(⟨"chrome-linux64/chrome", false, 5⟩,
      ⟨true, OpenFileRes.opened, true, true, some 5, true, true⟩)]
    ⟨"chrome-linux64/chrome", false, 5⟩
    ⟨true, OpenFileRes.opened, true, true, some 5, true, true⟩ "C:/x"
  have hbad := claim_c2_amended true "chrome-linux64" "/dest"
    [(⟨"../escape.txt", false, 5⟩,
      ⟨true, OpenFileRes.opened, true, true, some 5, true, true⟩)]
    ⟨"../escape.txt", false, 5⟩
    ⟨true, OpenFileRes.opened, true, true, some 5, true, true⟩ "../escape.txt"
  ⟨hgood.1 "/dest/chrome" (by decide),
   hbad.2.1 (by decide) (by decide),
   hgood.2.2.1 (by decide),
   hbad.2.2.2 (by decide)⟩

/-- Counterexample to C2 as stated: on the unix build an entry with
drive-letter syntax is not rejected — `unzip` succeeds and creates the
file under the destination (as the ordinary name "C:"), instead of
returning an error. -/
theorem claim_c2_counterexample :
    hasDriveColon (strippedName "chrome-linux64" "C:/x") = true ∧
    unzip true "chrome-linux64" "/dest"
        [(⟨"C:/x", false, 5⟩,
          ⟨true, OpenFileRes.opened, true, true, some 5, true, true⟩)] =
      (["/dest/C:/x"], none) := by
  exact ⟨by decide, by decide⟩

/-- C10: `getUserDataDir` maps "linux" to the
`Library/Application Support` tree and "darwin" to the `.config` tree
(the conventional macOS and Linux locations, assigned to the opposite
operating systems), and errors exactly when the required environment
variable is empty or the goos is none of linux, darwin, windows. -/
theorem claim_c10 : ∀ (goos home lad : String),
    (home ≠ "" →
      getUserDataDir "linux" home lad =
        Except.ok (joinPath [home, "Library", "Application Support", "Google",
          "Chrome for Testing"]) ∧
      getUserDataDir "darwin" home lad =
        Except.ok (joinPath [home, ".config", "google-chrome-for-testing"])) ∧
    (isErr (getUserDataDir goos home lad) = true ↔
      (((goos = "linux" ∨ goos = "darwin") ∧ home = "") ∨
       (goos = "windows" ∧ lad = "") ∨
       (goos ≠ "linux" ∧ goos ≠ "darwin" ∧ goos ≠ "windows"))) := by
  intro goos home lad
  constructor
  · intro hh
    constructor
    · unfold getUserDataDir
      simp [hh]
    · unfold getUserDataDir
      simp [hh, show ("darwin" : String) ≠ "linux" from by decide]
  · unfold getUserDataDir isErr
    by_cases h1 : goos = "linux"
    · subst h1
      by_cases hh : home = "" <;> simp [hh]
    · by_cases h2 : goos = "darwin"
      · subst h2
        by_cases hh : home = "" <;>
          simp [hh, show ("darwin" : String) ≠ "linux" from by decide]
      · by_cases h3 : goos = "windows"
        · subst h3
          by_cases hl : lad = "" <;>
            simp [hl, show ("windows" : String) ≠ "linux" from by decide,
              show ("windows" : String) ≠ "darwin" from by decide]
        · simp [h1, h2, h3]

/-- Witness for C10 at a concrete home directory. -/
theorem claim_c10_witness :
    getUserDataDir "linux" "/h" "" =
      Except.ok (joinPath ["/h", "Library", "Application Support", "Google",
        "Chrome for Testing"]) ∧
    getUserDataDir "darwin" "/h" "" =
      Except.ok (joinPath ["/h", ".config", "google-chrome-for-testing"]) :=
  (claim_c10 "linux" "/h" "").1 (by decide)

end CFT
